import Mathlib

/-!
Shallow embedding of the `rewind` crate (a retroactively editable, versioned
voxel store) and proofs about its transaction/undo engine and persistent
storage layer.

Rust `i32` coordinates are modelled as `Int`, `usize` as `Nat`, and `u32`
transaction ids as `Nat` reduced modulo `2 ^ 32` where the source performs
arithmetic on them.  Persistent containers are modelled as lists: `Purse<T>`
(a `Vec<Arc<T>>`) becomes `List T`, where propositional equality of entries
models reference identity of the shared `Arc`s; `im::OrdMap` becomes a list
of key-value pairs kept sorted in ascending key order (the order in which
`OrdMap` iterates); `im::HashMap` becomes an association list queried only
through lookup.  Loops in the source whose termination is in question are
modelled with an explicit fuel parameter, `none` meaning the computation has
not finished within the given fuel; panics (`unwrap` of a missing value) are
also modelled by `none` in an `Option`-valued result.
-/

set_option linter.unusedVariables false

namespace Rw

/-! ## data/block.rs -/

/-- Model of `Block` (`src/data/block.rs`): a `(provider: u16, id: u16)` pair,
never inspected by the core. -/
structure Block where
  provider : Nat
  id : Nat
  deriving DecidableEq, Repr

/-- Model of `Block::new_from_ids`. -/
def Block.new_from_ids (provider id : Nat) : Block := ⟨provider, id⟩

/-- Model of `MetaData` (`src/data/block.rs`): an optional `i32` data value. -/
structure MetaData where
  data_value : Option Int
  deriving DecidableEq, Repr

/-- Model of `MetaData::new`. -/
def MetaData.new : MetaData := ⟨none⟩

/-- Model of `MetaBlock` (`src/data/block.rs`): a `Block` paired with its
`MetaData`.  The source derives only `Clone, Copy`; the `==` comparisons in
`lib.rs` require the (clearly intended) structural equality, which the model
supplies through `DecidableEq`. -/
structure MetaBlock where
  block : Block
  meta_data : MetaData
  deriving DecidableEq, Repr

/-- Model of `MetaBlock::fuse`. -/
def MetaBlock.fuse (block : Block) (meta : MetaData) : MetaBlock := ⟨block, meta⟩

/-- Model of `MetaBlock::get_block`. -/
def MetaBlock.get_block (m : MetaBlock) : Block := m.block

/-- Model of `MetaBlock::get_meta_data`. -/
def MetaBlock.get_meta_data (m : MetaBlock) : MetaData := m.meta_data

/-! ## data/transaction.rs: ids and operation types -/

/-- Model of `TransactionID` (`src/data/transaction.rs`): a pair of `u32`s,
`id` the major component and `sub_id` the minor tie-breaker. -/
structure TransactionID where
  id : Nat
  sub_id : Nat
  deriving DecidableEq, Repr

/-- Model of `TransactionID::new`: starts from zero. -/
def TransactionID.new : TransactionID := ⟨0, 0⟩

/-- Model of `TransactionID::new_from_parts`. -/
def TransactionID.new_from_parts (id sub_id : Nat) : TransactionID := ⟨id, sub_id⟩

/-- Model of `TransactionID::increment_major`: `self.id + 1` on a `u32`
(hence reduced modulo `2 ^ 32`), with the minor id reset to `0`. -/
def TransactionID.increment_major (t : TransactionID) : TransactionID :=
  ⟨(t.id + 1) % 2 ^ 32, 0⟩

/-- Strict order on `TransactionID` from its `Ord` impl: compare the major
component first, then the minor one. -/
def TransactionID.ltb (a b : TransactionID) : Bool :=
  decide (a.id < b.id ∨ (a.id = b.id ∧ a.sub_id < b.sub_id))

/-- Model of `TransactionType` (`src/data/transaction.rs`). -/
inductive TransactionType where
  | Set (block_set : MetaBlock)
  | Replace (block_current block_set : MetaBlock)
  | Undo (transaction : TransactionID)
  deriving DecidableEq, Repr

/-- Model of `RawTransaction` (`src/data/transaction.rs`): an unsubmitted
operation.  The owner `Uuid` and the timestamp are opaque payloads and are
modelled as bare naturals. -/
structure RawTransaction where
  transaction_type : TransactionType
  owner : Nat
  time : Option Nat
  coords : Option (Int × Int × Int)
  deriving DecidableEq, Repr

/-- Model of `RawTransaction::get_transaction_type`. -/
def RawTransaction.get_transaction_type (t : RawTransaction) : TransactionType :=
  t.transaction_type

/-- Model of `RawTransaction::get_coords`. -/
def RawTransaction.get_coords (t : RawTransaction) : Option (Int × Int × Int) :=
  t.coords

/-- Model of `Transaction` (`src/data/transaction.rs`): a `RawTransaction`
plus its assigned `TransactionID`. -/
structure Transaction where
  transaction : RawTransaction
  id : TransactionID
  deriving DecidableEq, Repr

/-- Model of `Transaction::new`. -/
def Transaction.new (transaction : RawTransaction) (id : TransactionID) : Transaction :=
  ⟨transaction, id⟩

/-- Model of `Transaction::get_transaction`. -/
def Transaction.get_transaction (t : Transaction) : RawTransaction := t.transaction

/-- Model of `Transaction::get_id`: the transaction's own id. -/
def Transaction.get_id (t : Transaction) : TransactionID := t.id

/-- Modelled from the spec: `Transaction::is_undo` is called by `run_history`
in `src/lib.rs` but its definition is absent from the sources; per the replay
algorithm of the spec it tests whether the transaction's operation is an
`Undo`. -/
def Transaction.is_undo (t : Transaction) : Bool :=
  match t.transaction.transaction_type with
  | .Undo _ => true
  | _ => false

/-! ## storage/purse.rs, storage/slice.rs, storage/cuboid.rs -/

/-- Model of `SparseMatrix::get_index` (`src/storage/slice.rs`), i.e.
`Vec::position`: index of the first occurrence of `p` in the coordinate
list. -/
def position (p : Nat × Nat) : List (Nat × Nat) → Option Nat
  | [] => none
  | q :: rest => if q = p then some 0 else (position p rest).map (· + 1)

/-- Model of `Matrix<T>` (`src/storage/slice.rs`): the closed two-variant
union of a sparse coordinate-list matrix and a dense array matrix.  A
`Purse<T>` is modelled as the list of its elements. -/
inductive Matrix (T : Type) where
  | SMatrix (coords : List (Nat × Nat)) (data : List T) (x_size y_size : Nat)
  | AMatrix (data : List (Option T)) (x_size y_size : Nat)
  deriving DecidableEq, Repr

/-- Model of `Matrix::new`: starts sparse and empty. -/
def Matrix.new (T : Type) (x_size y_size : Nat) : Matrix T :=
  .SMatrix [] [] x_size y_size

/-- Model of `Matrix::get`, dispatching to `SparseMatrix::get` or
`ArrayMatrix::get`.  Both variants index a `Purse` whose out-of-bounds
access would panic in the source; the model folds that (unreachable under
`Cuboid.wfb`) case into `none`. -/
def Matrix.get {T : Type} (m : Matrix T) (x y : Nat) : Option T :=
  match m with
  | .SMatrix coords data _ _ =>
    match position (x, y) coords with
    | some i => data[i]?
    | none => none
  | .AMatrix data xs _ =>
    match data[(x * xs + y)]? with
    | some o => o
    | none => none

/-- Model of `Matrix::set`, dispatching to `SparseMatrix::set` (replace the
value at a matching coordinate, or push a new coordinate-value pair at the
end) or `ArrayMatrix::set`. -/
def Matrix.set {T : Type} (m : Matrix T) (x y : Nat) (v : T) : Matrix T :=
  match m with
  | .SMatrix coords data xs ys =>
    match position (x, y) coords with
    | some i => .SMatrix coords (data.set i v) xs ys
    | none => .SMatrix (coords ++ [(x, y)]) (data ++ [v]) xs ys
  | .AMatrix data xs ys => .AMatrix (data.set (x * xs + y) (some v)) xs ys

/-- Model of `Slice<T>` (`src/storage/slice.rs`): a matrix plus a default
value and its declared bounds. -/
structure Slice (T : Type) where
  matrix : Matrix T
  default : T
  x_size : Nat
  y_size : Nat
  deriving DecidableEq, Repr

/-- Model of `Slice::new`. -/
def Slice.new (x_size y_size : Nat) (default : T) : Slice T :=
  ⟨Matrix.new T x_size y_size, default, x_size, y_size⟩

/-- Model of `Slice::get`: defaulting read, out-of-bounds or absent entries
yield the default. -/
def Slice.get {T : Type} (s : Slice T) (x y : Nat) : T :=
  if x ≥ s.x_size ∨ y ≥ s.y_size then s.default
  else (s.matrix.get x y).getD s.default

/-- Modelled from the spec: `Slice::set` is called by `Cuboid::set`
(`src/storage/cuboid.rs`) but its definition is absent from
`src/storage/slice.rs`; per the spec's PersistentMatrix contract it updates
the backing matrix at `(x, y)` (replace a matching coordinate or append a
new pair), returning a new slice. -/
def Slice.set {T : Type} (s : Slice T) (x y : Nat) (v : T) : Slice T :=
  { s with matrix := s.matrix.set x y v }

/-- Model of `Cuboid<T>` (`src/storage/cuboid.rs`): a `Purse` of `Slice`
layers (modelled as the list of the layers), a default value, and the three
declared extents. -/
structure Cuboid (T : Type) where
  data : List (Slice T)
  default : T
  x_size : Nat
  y_size : Nat
  z_size : Nat
  deriving DecidableEq, Repr

/-- Model of `Cuboid::new`: `z_size` copies of one all-default slice. -/
def Cuboid.new (x_size y_size z_size : Nat) (default : T) : Cuboid T :=
  ⟨List.replicate z_size (Slice.new x_size y_size default), default, x_size, y_size, z_size⟩

/-- Model of `Cuboid::get`: out-of-bounds reads yield the default; in bounds
the layer `z` is consulted.  Indexing the layer list out of range would
panic in the source (impossible when the layer count matches `z_size`); the
model folds that case into the default. -/
def Cuboid.get {T : Type} (c : Cuboid T) (x y z : Nat) : T :=
  if x ≥ c.x_size ∨ y ≥ c.y_size ∨ z ≥ c.z_size then c.default
  else
    match c.data[z]? with
    | some s => s.get x y
    | none => c.default

/-- Model of `Cuboid::set`: out-of-bounds writes are rejected with `none`;
in bounds only layer `z` is replaced by its updated copy.  The inner `none`
arm models the source's panic on indexing a layer list shorter than
`z_size`, unreachable under `Cuboid.wfb`. -/
def Cuboid.set {T : Type} (c : Cuboid T) (x y z : Nat) (v : T) : Option (Cuboid T) :=
  if x ≥ c.x_size ∨ y ≥ c.y_size ∨ z ≥ c.z_size then none
  else
    match c.data[z]? with
    | some old_slice => some { c with data := c.data.set z (old_slice.set x y v) }
    | none => none

/-- Well-formedness of a slice as a layer of a cuboid with extents
`(w, h)`: the backing matrix is the sparse variant (the only one any
API-constructed cuboid ever contains — `Matrix::new` starts sparse and
repacking is unimplemented), its two parallel vectors have equal length,
and the slice's declared bounds agree with the cuboid's. -/
def Slice.wfb {T : Type} (s : Slice T) (w h : Nat) : Bool :=
  (match s.matrix with
    | .SMatrix coords data _ _ => coords.length == data.length
    | .AMatrix _ _ _ => false)
  && s.x_size == w && s.y_size == h

/-- Well-formedness of a cuboid: one layer per unit of `z_size`, each layer
well-formed for the cuboid's extents. -/
def Cuboid.wfb {T : Type} (c : Cuboid T) : Bool :=
  c.data.length == c.z_size && c.data.all (fun s => s.wfb c.x_size c.y_size)

/-! ## data/chunk.rs -/

/-- Default chunk edge length, `CHUNK_SIZE` in `src/data/chunk.rs`. -/
def CHUNK_SIZE : Nat := 256

/-- Model of `Chunk` (`src/data/chunk.rs`).  The optional naming dictionary
is an external, read-only collaborator never consulted by the modelled
operations; it is carried as an opaque `Option Unit`. -/
structure Chunk where
  dictonary : Option Unit
  blocks : Cuboid Block
  meta_data : Cuboid MetaData
  default_block : Block
  x_size : Nat
  y_size : Nat
  z_size : Nat
  deriving DecidableEq, Repr

/-- Model of `Chunk::new`: a `CHUNK_SIZE`-cubed chunk with all-default
content and no dictionary. -/
def Chunk.new (default_block : Block) : Chunk :=
  ⟨none, Cuboid.new CHUNK_SIZE CHUNK_SIZE CHUNK_SIZE default_block,
    Cuboid.new CHUNK_SIZE CHUNK_SIZE CHUNK_SIZE MetaData.new,
    default_block, CHUNK_SIZE, CHUNK_SIZE, CHUNK_SIZE⟩

/-- Model of `Chunk::get_block`: fuse the block and metadata reads. -/
def Chunk.get_block (c : Chunk) (x y z : Nat) : MetaBlock :=
  MetaBlock.fuse (c.blocks.get x y z) (c.meta_data.get x y z)

/-- Model of `Chunk::set_block`: update both cuboids, keeping the old one
wherever the volumetric write reports no effect (`unwrap_or`). -/
def Chunk.set_block (c : Chunk) (x y z : Nat) (block : MetaBlock) : Chunk :=
  { c with
    blocks := (c.blocks.set x y z block.get_block).getD c.blocks
    meta_data := (c.meta_data.set x y z block.get_meta_data).getD c.meta_data }

/-! ## data/world.rs -/

/-- Lookup in the model of `im::HashMap<(i32, i32), Chunk>`: first entry
with a matching key. -/
def assocLookup (k : Int × Int) : List ((Int × Int) × Chunk) → Option Chunk
  | [] => none
  | (k', v) :: rest => if k' = k then some v else assocLookup k rest

/-- Insertion in the model of `im::HashMap`: replaces any previous binding
of the key. -/
def assocInsert (k : Int × Int) (v : Chunk) (l : List ((Int × Int) × Chunk)) :
    List ((Int × Int) × Chunk) :=
  (k, v) :: l.filter (fun p => p.1 ≠ k)

/-- Model of `World` (`src/data/world.rs`): a conceptually infinite 2-D map
of chunks keyed by chunk-aligned coordinate, plus the default block and the
chunk size. -/
structure World where
  chunks : List ((Int × Int) × Chunk)
  default_block : MetaBlock
  chunk_size : Nat
  deriving DecidableEq, Repr

/-- Model of `World::new`. -/
def World.new (default_block : MetaBlock) : World :=
  ⟨[], default_block, CHUNK_SIZE⟩

/-- Model of `World::get_chunk_index`: `(x - (x % chunk_size), y - (y %
chunk_size))` where `%` is Rust's truncated remainder (`Int.tmod`). -/
def World.get_chunk_index (w : World) (x y : Int) : Int × Int :=
  let chunk_size : Int := (w.chunk_size : Int)
  (x - Int.tmod x chunk_size, y - Int.tmod y chunk_size)

/-- Model of `World::get_chunk_at`: look the chunk up under the chunk
index of the coordinate. -/
def World.get_chunk_at (w : World) (x y : Int) : Option Chunk :=
  assocLookup (w.get_chunk_index x y) w.chunks

/-- Model of `World::convert_coords`: each axis is turned into an in-chunk
offset by `(coord.abs() as usize) % chunk_size` — the sign is discarded. -/
def World.convert_coords (w : World) (x y z : Int) : Nat × Nat × Nat :=
  (x.natAbs % w.chunk_size, y.natAbs % w.chunk_size, z.natAbs % w.chunk_size)

/-- Model of `World::get_block_at`. -/
def World.get_block_at (w : World) (x y z : Int) : Option MetaBlock :=
  let chunk := w.get_chunk_at x y
  let c := w.convert_coords x y z
  match chunk with
  | some chunk => some (chunk.get_block c.1 c.2.1 c.2.2)
  | none => none

/-- Model of `World::get_block_defaulting`. -/
def World.get_block_defaulting (w : World) (x y z : Int) : MetaBlock :=
  (w.get_block_at x y z).getD w.default_block

/-- Model of `World::set_block_defaulting`: update (or lazily materialize)
the chunk containing the coordinate. -/
def World.set_block_defaulting (w : World) (x y z : Int) (block : MetaBlock) : World :=
  let index := w.get_chunk_index x y
  let c := w.convert_coords x y z
  let empty_chunk := Chunk.new w.default_block.get_block
  let old_chunk := (assocLookup index w.chunks).getD empty_chunk
  { w with chunks := assocInsert index (old_chunk.set_block c.1 c.2.1 c.2.2 block) w.chunks }

/-! ## lib.rs: WorldLine -/

/-- Ordered insertion into the model of `im::OrdMap<TransactionID,
Transaction>`: the list is kept sorted in ascending key order and an equal
key has its value replaced. -/
def insertSorted (k : TransactionID) (v : Transaction) :
    List (TransactionID × Transaction) → List (TransactionID × Transaction)
  | [] => [(k, v)]
  | (k', v') :: rest =>
    if TransactionID.ltb k k' then (k, v) :: (k', v') :: rest
    else if k = k' then (k, v) :: rest
    else (k', v') :: insertSorted k v rest

/-- Ordered duplicate-free insertion into the model of
`im::OrdSet<TransactionID>`. -/
def insertSortedSet (k : TransactionID) : List TransactionID → List TransactionID
  | [] => [k]
  | k' :: rest =>
    if TransactionID.ltb k k' then k :: k' :: rest
    else if k = k' then k' :: rest
    else k' :: insertSortedSet k rest

/-- Model of `WorldLine` (`src/lib.rs`): the committed transactions as an
ordered map, modelled by its ascending key-order entry list. -/
structure WorldLine where
  transactions : List (TransactionID × Transaction)
  deriving DecidableEq, Repr

/-- Model of `WorldLine::new`. -/
def WorldLine.new : WorldLine := ⟨[]⟩

/-- Model of `WorldLine::add_transaction`: assign the id
`previousMax.increment_major()` (or `TransactionID::new()` on an empty
log), wrap, insert, and return the committed transaction. -/
def WorldLine.add_transaction (wl : WorldLine) (transaction : RawTransaction) :
    WorldLine × Transaction :=
  let id := match wl.transactions.getLast? with
    | some (t, _) => t.increment_major
    | none => TransactionID.new
  let new_transaction := Transaction.new transaction id
  (⟨insertSorted id new_transaction wl.transactions⟩, new_transaction)

/-- Model of `WorldLine::lookup_transaction`. -/
def WorldLine.lookup_transaction (wl : WorldLine) (transaction_id : TransactionID) :
    Option Transaction :=
  lookupGo wl.transactions transaction_id
where
  lookupGo : List (TransactionID × Transaction) → TransactionID → Option Transaction
  | [], _ => none
  | (k, v) :: rest, tid => if k = tid then some v else lookupGo rest tid

/-- Model of `WorldLine::get_undo`: scan the committed transactions in
ascending id order for an `Undo` whose target equals `transaction_id`.
Faithful to the source, the value returned on a match is `transaction` —
the binder introduced by the `Undo { transaction }` pattern, i.e. the
matching Undo's *target* (which equals the queried id), not the key of the
Undo transaction itself. -/
def WorldLine.get_undo (wl : WorldLine) (transaction_id : TransactionID) :
    Option TransactionID :=
  undoGo wl.transactions transaction_id
where
  undoGo : List (TransactionID × Transaction) → TransactionID → Option TransactionID
  | [], _ => none
  | (k, v) :: rest, tid =>
    match v.get_transaction.get_transaction_type with
    | .Undo transaction => if transaction = tid then some transaction else undoGo rest tid
    | _ => undoGo rest tid

/-- Loop body of `WorldLine::get_undo_history`, with explicit fuel: while
the current value is `some t`, push `t` and continue from `get_undo t`.
`none` means the loop has not terminated within `fuel` iterations. -/
def undoHistoryLoop (wl : WorldLine) :
    Option TransactionID → Nat → List TransactionID → Option (List TransactionID)
  | none, _, acc => some acc
  | some _, 0, _ => none
  | some t, fuel + 1, acc => undoHistoryLoop wl (wl.get_undo t) fuel (acc ++ [t])

/-- Model of `WorldLine::get_undo_history` (fuelled): follow `get_undo`
repeatedly starting from `transaction_id`. -/
def WorldLine.get_undo_history (wl : WorldLine) (fuel : Nat) (transaction_id : TransactionID) :
    Option (List TransactionID) :=
  undoHistoryLoop wl (some transaction_id) fuel []

/-- Model of `WorldLine::get_transactions_for_block`: the ordered set of
ids of committed transactions whose recorded coordinates equal `(x, y, z)`
(Undos, having no coordinates, never match). -/
def WorldLine.get_transactions_for_block (wl : WorldLine) (x y z : Int) :
    List TransactionID :=
  wl.transactions.foldl
    (fun s kv =>
      if kv.2.get_transaction.get_coords = some (x, y, z) then insertSortedSet kv.1 s else s)
    []

/-- Loop of `WorldLine::get_block_history` that augments the initial id set
with the undo history of each of its members (iterating the initial set,
inserting into the accumulating set); `none` propagates a non-terminating
`get_undo_history`. -/
def collectChains (wl : WorldLine) (fuel : Nat) :
    List TransactionID → List TransactionID → Option (List TransactionID)
  | [], acc => some acc
  | k :: rest, acc =>
    match wl.get_undo_history fuel k with
    | none => none
    | some chain => collectChains wl fuel rest (chain.foldl (fun a v => insertSortedSet v a) acc)

/-- Model of `WorldLine::get_block_history` (fuelled): all transactions
relevant to the block, in ascending id order.  The final `unwrap` on each
lookup is modelled by `Option.mapM`; a missing id (panic in the source)
yields `none`, as does non-termination of the undo chains. -/
def WorldLine.get_block_history (wl : WorldLine) (fuel : Nat) (x y z : Int) :
    Option (List Transaction) :=
  let set0 := wl.get_transactions_for_block x y z
  match collectChains wl fuel set0 set0 with
  | none => none
  | some s => s.mapM (fun id => wl.lookup_transaction id)

/-- Model of `WorldLine::get_undone_block` (fuelled recursion): resolve the
coordinates ultimately affected by a transaction by following `Undo`
targets until a non-`Undo` transaction is reached. -/
def WorldLine.get_undone_block (wl : WorldLine) :
    Nat → TransactionID → Option (Option (Int × Int × Int))
  | 0, _ => none
  | fuel + 1, transaction =>
    match wl.lookup_transaction transaction with
    | some t =>
      match t.get_transaction.get_transaction_type with
      | .Undo tid => wl.get_undone_block fuel tid
      | _ => some t.get_transaction.get_coords
    | none => some none

/-! ## lib.rs: run_history and the Rewind engine -/

/-- Model of `run_history` (`src/lib.rs`): drop the Undos, collect — faithful
to the source — the *own* ids (`Transaction::get_id`) of the Undo
transactions present in the slice, remove the non-Undo transactions whose id
is in that set, and fold the remainder in order: `Set` overwrites, `Replace`
overwrites only when the accumulator equals its expected value. -/
def run_history (history : List Transaction) (default_block : MetaBlock) : MetaBlock :=
  let new_history := history.filter (fun x => !x.is_undo)
  let undos := (history.filter (fun x => x.is_undo)).map (fun x => x.get_id)
  let final_history := new_history.filter (fun x => !(undos.contains x.get_id))
  final_history.foldl
    (fun block t =>
      match t.get_transaction.get_transaction_type with
      | .Set block_set => block_set
      | .Replace block_current block_set => if block = block_current then block_set else block
      | .Undo _ => block)
    default_block

/-- Model of the shared state of a `Rewind` handle (`src/lib.rs`): the
world, the world line, and the configured default block.  `apply_transaction`
holds both write locks for its whole duration, so its sequential semantics
is a pure function of this state. -/
structure RewindState where
  world : World
  world_line : WorldLine
  default_block : MetaBlock
  deriving DecidableEq, Repr

/-- Model of `Rewind::new`. -/
def RewindState.new (default_block : MetaBlock) : RewindState :=
  ⟨World.new default_block, WorldLine.new, default_block⟩

/-- Model of `Rewind::apply_transaction` (fuelled): returns
`some (state', some txn)` on a commit, `some (state', none)` on a routine
rejection, and `none` when the call does not terminate (or panics) within
the given fuel — which can happen only on the `Undo` path, via
`get_undone_block` / `get_block_history`. -/
def RewindState.apply_transaction (s : RewindState) (fuel : Nat)
    (transaction : RawTransaction) : Option (RewindState × Option Transaction) :=
  match transaction.get_transaction_type with
  | .Set block_set =>
    match transaction.get_coords with
    | some (x, y, z) =>
      let world' := s.world.set_block_defaulting x y z block_set
      let wt := s.world_line.add_transaction transaction
      some ({ s with world := world', world_line := wt.1 }, some wt.2)
    | none => some (s, none)
  | .Replace block_current block_set =>
    match transaction.get_coords with
    | some (x, y, z) =>
      let old_block := s.world.get_block_defaulting x y z
      if old_block = block_current then
        let world' := s.world.set_block_defaulting x y z block_set
        let wt := s.world_line.add_transaction transaction
        some ({ s with world := world', world_line := wt.1 }, some wt.2)
      else some (s, none)
    | none => some (s, none)
  | .Undo tid =>
    match s.world_line.lookup_transaction tid with
    | some _ =>
      let wt := s.world_line.add_transaction transaction
      match wt.1.get_undone_block fuel tid with
      | none => none
      | some none => none
      | some (some (x, y, z)) =>
        match wt.1.get_block_history fuel x y z with
        | none => none
        | some history =>
          let new_block := run_history history s.default_block
          some ({ s with world := s.world.set_block_defaulting x y z new_block,
                         world_line := wt.1 }, some wt.2)
    | none => some (s, none)

/-- Model of `Rewind::get_block_history` (fuelled): pair the `i`-th relevant
transaction with the state obtained by replaying the prefix of the first
`i` transactions. -/
def RewindState.get_block_history (s : RewindState) (fuel : Nat) (x y z : Int) :
    Option (List (MetaBlock × Transaction)) :=
  match s.world_line.get_block_history fuel x y z with
  | none => none
  | some transactions =>
    some (transactions.enum.map
      (fun it => (run_history (transactions.take it.1) s.default_block, it.2)))

/-! ## data/transaction.rs: the builder -/

/-- Model of `RawTransactionBuilder` (`src/data/transaction.rs`). -/
structure RawTransactionBuilder where
  transaction_type : TransactionType
  owner : Option Nat
  time : Option Nat
  coord_x : Option Int
  coord_y : Option Int
  coord_z : Option Int
  deriving DecidableEq, Repr

/-- Model of `RawTransactionBuilder::new`. -/
def RawTransactionBuilder.new (transaction_type : TransactionType) : RawTransactionBuilder :=
  ⟨transaction_type, none, none, none, none, none⟩

/-- The string literal handed to `Uuid::parse_str` in
`RawTransactionBuilder::build_transaction`: thirty-one `'0'` characters
(one short of the thirty-two a simple-format UUID requires). -/
def null_uuid_str : String := String.mk (List.replicate 31 '0')

/-- Modelled from the external `uuid` crate: `Uuid::parse_str` accepts a
string only in the simple (32 hex characters), hyphenated (36 characters)
or URN (45 characters) format; any other input length is a parse error.
Only the length gate is relevant here, so the accepted value is opaque. -/
def uuid_parse_str (s : String) : Option Nat :=
  if s.length = 32 ∨ s.length = 36 ∨ s.length = 45 then some 0 else none

/-- Model of `RawTransactionBuilder::build_transaction`.  The argument of
`unwrap_or` is evaluated unconditionally in Rust, so
`Uuid::parse_str(...).unwrap()` runs on every call; an `Err` there panics,
modelled by the outer `none`.  Otherwise `some r` carries the source's
`Option<RawTransaction>` result: `none` when a `Set`/`Replace` lacks a
complete coordinate triple, `some` otherwise. -/
def RawTransactionBuilder.build_transaction (b : RawTransactionBuilder) :
    Option (Option RawTransaction) :=
  match uuid_parse_str null_uuid_str with
  | none => none
  | some default_uuid =>
    let owner := b.owner.getD default_uuid
    let coords : Option (Int × Int × Int) :=
      match b.coord_x, b.coord_y, b.coord_z with
      | some x, some y, some z => some (x, y, z)
      | _, _, _ => none
    let t : RawTransaction := ⟨b.transaction_type, owner, b.time, coords⟩
    match b.transaction_type with
    | .Set _ => some (if coords.isSome then some t else none)
    | .Replace _ _ => some (if coords.isSome then some t else none)
    | .Undo _ => some (some t)

/-! ## Concrete scenario data shared by several theorems -/

/-- A default block state `D` used as the engine's configured default. -/
def blockD : MetaBlock := ⟨⟨0, 0⟩, ⟨none⟩⟩

/-- A block state `A`, distinct from the default. -/
def blockA : MetaBlock := ⟨⟨0, 1⟩, ⟨none⟩⟩

/-- A block state `B`, distinct from `A` and the default. -/
def blockB : MetaBlock := ⟨⟨0, 2⟩, ⟨none⟩⟩

/-- The pending transaction `Set(A) @ (0,0,0)`. -/
def rawSetA : RawTransaction := ⟨.Set blockA, 0, none, some (0, 0, 0)⟩

/-- The pending transaction `Set(B) @ (0,0,0)`. -/
def rawSetB : RawTransaction := ⟨.Set blockB, 0, none, some (0, 0, 0)⟩

/-- The pending transaction `Undo(target = (1,0))`. -/
def rawUndoB : RawTransaction := ⟨.Undo ⟨1, 0⟩, 0, none, none⟩

/-- The pending transaction `Undo(target = (0,0))`. -/
def rawUndoA : RawTransaction := ⟨.Undo ⟨0, 0⟩, 0, none, none⟩

/-- The committed `Set(A)` transaction, id `(0,0)`. -/
def txnA : Transaction := ⟨rawSetA, ⟨0, 0⟩⟩

/-- The committed `Set(B)` transaction, id `(1,0)`. -/
def txnB : Transaction := ⟨rawSetB, ⟨1, 0⟩⟩

/-- The committed `Undo(target = (1,0))` transaction, id `(2,0)`. -/
def txnU : Transaction := ⟨rawUndoB, ⟨2, 0⟩⟩

/-- The empty engine with default `D`. -/
def s0 : RewindState := RewindState.new blockD

/-- The log after committing `Set(A)`. -/
def wl1 : WorldLine := ⟨[(⟨0, 0⟩, txnA)]⟩

/-- The log after committing `Set(A)` then `Set(B)`. -/
def wl2 : WorldLine := ⟨[(⟨0, 0⟩, txnA), (⟨1, 0⟩, txnB)]⟩

/-- The log after committing `Set(A)`, `Set(B)` and `Undo(target = (1,0))`. -/
def wl3 : WorldLine := ⟨[(⟨0, 0⟩, txnA), (⟨1, 0⟩, txnB), (⟨2, 0⟩, txnU)]⟩

/-- The engine state after the first `applyTransaction(Set(A))`. -/
def s1 : RewindState :=
  { s0 with world := s0.world.set_block_defaulting 0 0 0 blockA, world_line := wl1 }

/-- The engine state after `Set(A)` then `Set(B)`. -/
def s2 : RewindState :=
  { s1 with world := s1.world.set_block_defaulting 0 0 0 blockB, world_line := wl2 }

/-- A log holding `Set(A) @ (0,0,0)` as id `(0,0)` and an Undo targeting it
as id `(1,0)` — the minimal log in which a transaction has been undone. -/
def wlU : WorldLine := ⟨[(⟨0, 0⟩, txnA), (⟨1, 0⟩, ⟨rawUndoA, ⟨1, 0⟩⟩)]⟩

/-- The engine state whose log holds the three committed transactions of
the `Set(A)`, `Set(B)`, `Undo` scenario (the `Undo` is appended to the log
before the diverging replay, so this log state is reached even though the
third `apply_transaction` call never returns). -/
def s3 : RewindState := { s2 with world_line := wl3 }

/-- A `Replace` pending transaction at the origin expecting `A` (while the
empty engine's current read there is the default `D`). -/
def rawRepl : RawTransaction := ⟨.Replace blockA blockB, 0, none, some (0, 0, 0)⟩

/-- The log after `k` successful appends of the pending transactions
`raws 0, raws 1, ...` starting from the empty world line.  Every successful
`apply_transaction` performs exactly one `add_transaction`, so this iterates
the sole id-assignment authority. -/
def iterAdd (raws : Nat → RawTransaction) : Nat → WorldLine
  | 0 => WorldLine.new
  | k + 1 => ((iterAdd raws k).add_transaction (raws k)).1

/-- The expected log contents after `k` appends: the `i`-th entry committed
under id `(i, 0)`. -/
def rangeLog (raws : Nat → RawTransaction) (k : Nat) : List (TransactionID × Transaction) :=
  (List.range k).map (fun i => (⟨i, 0⟩, ⟨raws i, ⟨i, 0⟩⟩))

/-! ## Divergence of the undo machinery -/

/-- Once `get_undo` maps `t` to itself — which it does whenever any
committed Undo targets `t`, since it returns the matched Undo's target
rather than its key — the `get_undo_history` loop never terminates. -/
theorem undoHistoryLoop_none (wl : WorldLine) (t : TransactionID)
    (h : wl.get_undo t = some t) :
    ∀ fuel acc, undoHistoryLoop wl (some t) fuel acc = none := by
  intro fuel
  induction fuel with
  | zero => intro acc; rfl
  | succ n ih =>
    intro acc
    have step : undoHistoryLoop wl (some t) (n + 1) acc
        = undoHistoryLoop wl (wl.get_undo t) n (acc ++ [t]) := rfl
    rw [step, h]
    exact ih (acc ++ [t])

/-- In the three-transaction scenario log, `get_block_history (0,0,0)`
never terminates, for any amount of fuel: the undo chain of the undone
`Set(B)` transaction loops on itself. -/
theorem wl3_block_history_none :
    ∀ fuel, WorldLine.get_block_history wl3 fuel 0 0 0 = none := by
  intro fuel
  cases fuel with
  | zero => rfl
  | succ n =>
    have h1 : WorldLine.get_undo_history wl3 (n + 1) ⟨0, 0⟩ = some [⟨0, 0⟩] := by
      have e : wl3.get_undo ⟨0, 0⟩ = none := rfl
      simp only [WorldLine.get_undo_history, undoHistoryLoop, e, List.nil_append]
    have h2 : WorldLine.get_undo_history wl3 (n + 1) ⟨1, 0⟩ = none :=
      undoHistoryLoop_none wl3 ⟨1, 0⟩ rfl (n + 1) []
    have hc : collectChains wl3 (n + 1) [⟨0, 0⟩, ⟨1, 0⟩] [⟨0, 0⟩, ⟨1, 0⟩] = none := by
      show (match WorldLine.get_undo_history wl3 (n + 1) ⟨0, 0⟩ with
            | none => none
            | some chain =>
              collectChains wl3 (n + 1) [⟨1, 0⟩]
                (chain.foldl (fun a v => insertSortedSet v a) [⟨0, 0⟩, ⟨1, 0⟩])) = none
      rw [h1]
      show (match WorldLine.get_undo_history wl3 (n + 1) ⟨1, 0⟩ with
            | none => none
            | some chain =>
              collectChains wl3 (n + 1) []
                (chain.foldl (fun a v => insertSortedSet v a) [⟨0, 0⟩, ⟨1, 0⟩])) = none
      rw [h2]
    show (match collectChains wl3 (n + 1) [⟨0, 0⟩, ⟨1, 0⟩] [⟨0, 0⟩, ⟨1, 0⟩] with
          | none => none
          | some s => s.mapM (fun id => WorldLine.lookup_transaction wl3 id)) = none
    rw [hc]

/-- C1: starting from the empty engine, `applyTransaction(Set(A) @ (0,0,0))`
and `applyTransaction(Set(B) @ (0,0,0))` commit as ids `(0,0)` and `(1,0)`,
but the third call, `applyTransaction(Undo targeting (1,0))`, never returns
(for every fuel bound the model reports non-termination): `get_undo` hands
back the undone transaction's own id, so the undo-history loop inside the
replay never ends.  The claimed outcome — all three calls succeeding and the
live read at `(0,0,0)` becoming `A` — is therefore unreachable. -/
theorem c1_undo_scenario_diverges :
    ∀ fuel : Nat,
      RewindState.apply_transaction s0 fuel rawSetA = some (s1, some txnA) ∧
      RewindState.apply_transaction s1 fuel rawSetB = some (s2, some txnB) ∧
      RewindState.apply_transaction s2 fuel rawUndoB = none := by
  intro fuel
  refine ⟨rfl, rfl, ?_⟩
  cases fuel with
  | zero => rfl
  | succ n =>
    have hbh := wl3_block_history_none (n + 1)
    show (match WorldLine.get_block_history wl3 (n + 1) 0 0 0 with
          | none => none
          | some history =>
            some (RewindState.mk
                (s2.world.set_block_defaulting 0 0 0 (run_history history s2.default_block))
                wl3 s2.default_block,
              some txnU)) = none
    rw [hbh]

/-- C2: in a log where the committed Undo `(1,0)` targets the committed
transaction `(0,0)`, `get_undo_history((0,0))` never terminates, for any
fuel — contradicting the claim that the chain walk terminates precisely in
this situation.  (The loop invariant is broken by `get_undo` returning the
queried id itself instead of the Undo's id.) -/
theorem c2_get_undo_history_diverges :
    (∀ fuel, WorldLine.get_undo_history wlU fuel ⟨0, 0⟩ = none) ∧
    WorldLine.lookup_transaction wlU ⟨1, 0⟩ = some ⟨rawUndoA, ⟨1, 0⟩⟩ ∧
    rawUndoA.get_transaction_type = .Undo ⟨0, 0⟩ := by
  refine ⟨fun fuel => undoHistoryLoop_none wlU ⟨0, 0⟩ rfl fuel [], rfl, rfl⟩

/-- C3: with the scenario log (`Set(A)` as `(0,0)`, `Set(B)` as `(1,0)`,
`Undo(target (1,0))` as `(2,0)`) in place, the engine-level
`get_block_history(0,0,0)` never returns, for any fuel — instead of
producing the three claimed `(state, transaction)` pairs. -/
theorem c3_engine_history_diverges :
    ∀ fuel, RewindState.get_block_history s3 fuel 0 0 0 = none := by
  intro fuel
  have hbh := wl3_block_history_none fuel
  show (match WorldLine.get_block_history wl3 fuel 0 0 0 with
        | none => none
        | some transactions =>
          some (transactions.enum.map
            (fun it => (run_history (transactions.take it.1) s3.default_block, it.2)))) = none
  rw [hbh]

/-- C6: in the log `wlU`, the only committed Undo is `(1,0)` and it targets
`(0,0)`; yet `get_undo((0,0))` returns `some (0,0)` — the queried id — not
`some (1,0)`, the id of the first matching Undo transaction, because the
`Undo { transaction }` pattern binding shadows the intended key. -/
theorem c6_get_undo_returns_queried_id :
    WorldLine.get_undo wlU ⟨0, 0⟩ = some ⟨0, 0⟩ ∧
    WorldLine.lookup_transaction wlU ⟨1, 0⟩ = some ⟨rawUndoA, ⟨1, 0⟩⟩ ∧
    rawUndoA.get_transaction_type = .Undo ⟨0, 0⟩ ∧
    (⟨0, 0⟩ : TransactionID) ≠ (⟨1, 0⟩ : TransactionID) := by
  exact ⟨rfl, rfl, rfl, by decide⟩

/-! ## Replace rejection (C4) -/

/-- C4: a `Replace` transaction carrying a coordinate whose expected value
differs from the Grid's current defaulting read there is rejected: the call
returns with nothing committed, the log is unchanged, and every
coordinate's defaulting read is identical to its pre-call value. -/
theorem c4_replace_mismatch_rejected (s : RewindState) (t : RawTransaction)
    (expected new : MetaBlock) (c : Int × Int × Int)
    (htype : t.transaction_type = .Replace expected new)
    (hcoords : t.coords = some c)
    (hne : expected ≠ s.world.get_block_defaulting c.1 c.2.1 c.2.2) :
    ∀ fuel, ∃ s', s.apply_transaction fuel t = some (s', none) ∧
      s'.world_line = s.world_line ∧
      ∀ x y z : Int, s'.world.get_block_defaulting x y z
        = s.world.get_block_defaulting x y z := by
  intro fuel
  obtain ⟨cx, cy, cz⟩ := c
  refine ⟨s, ?_, rfl, fun x y z => rfl⟩
  simp only [RewindState.apply_transaction, RawTransaction.get_transaction_type, htype,
    RawTransaction.get_coords, hcoords]
  rw [if_neg (fun heq => hne (by simpa using heq.symm))]

/-- Witness for C4: the hypotheses hold and the conclusion evaluates on the
empty engine and the mismatching `Replace`. -/
theorem c4_replace_mismatch_rejected_witness :
    (rawRepl.transaction_type = .Replace blockA blockB ∧
      rawRepl.coords = some ((0 : Int), (0 : Int), (0 : Int)) ∧
      blockA ≠ s0.world.get_block_defaulting 0 0 0) ∧
    (∃ s', s0.apply_transaction 0 rawRepl = some (s', none) ∧
      s'.world_line = s0.world_line ∧
      ∀ x y z : Int, s'.world.get_block_defaulting x y z
        = s0.world.get_block_defaulting x y z) :=
  ⟨⟨rfl, rfl, by decide⟩,
    c4_replace_mismatch_rejected s0 rawRepl blockA blockB (0, 0, 0) rfl rfl (by decide) 0⟩

/-! ## Sign of `z` is discarded (C9) -/

/-- Negating the third coordinate does not change the in-chunk offsets:
`convert_coords` takes absolute values. -/
theorem convert_coords_neg_z (w : World) (x y z : Int) :
    w.convert_coords x y (-z) = w.convert_coords x y z := by
  simp [World.convert_coords, Int.natAbs_neg]

/-- Truncated remainder is the identity on values smaller than the divisor
in absolute value. -/
theorem tmod_eq_self_of_natAbs_lt {a : Int} {s : Nat} (h : a.natAbs < s) :
    Int.tmod a (s : Int) = a := by
  have hcast : ((a.natAbs : Int)) < (s : Int) := by exact_mod_cast h
  have hdiv : a.tdiv (s : Int) = 0 := by
    rcases le_or_lt 0 a with ha | ha
    · have habs : (a.natAbs : Int) = a := Int.natAbs_of_nonneg ha
      exact Int.tdiv_eq_zero_of_lt ha (by omega)
    · have hneg : (0 : Int) ≤ -a := by omega
      have habs : ((-a).natAbs : Int) = -a := Int.natAbs_of_nonneg hneg
      have habs2 : (-a).natAbs = a.natAbs := Int.natAbs_neg a
      have h0 : (-a).tdiv (s : Int) = 0 := by
        refine Int.tdiv_eq_zero_of_lt hneg ?_
        rw [habs2] at habs
        omega
      have hneg2 : (-a).tdiv (s : Int) = -(a.tdiv (s : Int)) := Int.neg_tdiv a (s : Int)
      omega
  rw [Int.tmod_def, hdiv, mul_zero, sub_zero]

/-- A coordinate whose axes are smaller in absolute value than the chunk
size lies in the chunk keyed by the origin. -/
theorem chunk_index_origin (w : World) {x y : Int}
    (hx : x.natAbs < w.chunk_size) (hy : y.natAbs < w.chunk_size) :
    w.get_chunk_index x y = (0, 0) := by
  have h1 := tmod_eq_self_of_natAbs_lt hx
  have h2 := tmod_eq_self_of_natAbs_lt hy
  simp [World.get_chunk_index, h1, h2]

/-- C9: for every world and all coordinates, the defaulting read at
`(x, y, z)` equals the defaulting read at `(x, y, -z)` — `convert_coords`
discards the sign of `z` and the chunk key ignores `z` entirely — so a
write at `(x, y, z)` is read back at `(x, y, -z)` exactly as at
`(x, y, z)`.  Moreover, within the cell containing the origin (both `|x|`
and `|y|` below the chunk size), negated `x` and `y` alias the same stored
slot as well: both coordinates key the chunk `(0, 0)`, their in-cell
offsets coincide, and reads — before and after a write — agree at
`(-x, -y, z)` and `(x, y, z)`. -/
theorem c9_z_sign_discarded (w : World) (x y z : Int) (b : MetaBlock) :
    (w.get_block_defaulting x y z = w.get_block_defaulting x y (-z)) ∧
    ((w.set_block_defaulting x y z b).get_block_defaulting x y (-z)
      = (w.set_block_defaulting x y z b).get_block_defaulting x y z) ∧
    (x.natAbs < w.chunk_size → y.natAbs < w.chunk_size →
      w.get_chunk_index x y = (0, 0) ∧
      w.get_chunk_index (-x) (-y) = (0, 0) ∧
      w.convert_coords (-x) (-y) z = w.convert_coords x y z ∧
      w.get_block_defaulting x y z = w.get_block_defaulting (-x) (-y) z ∧
      (w.set_block_defaulting x y z b).get_block_defaulting (-x) (-y) z
        = (w.set_block_defaulting x y z b).get_block_defaulting x y z) := by
  have hz : ∀ w' : World, w'.get_block_at x y (-z) = w'.get_block_at x y z := by
    intro w'
    simp only [World.get_block_at, convert_coords_neg_z]
  refine ⟨by simp [World.get_block_defaulting, hz w],
    by simp [World.get_block_defaulting, hz _], ?_⟩
  intro hx hy
  have key : ∀ w' : World, w'.chunk_size = w.chunk_size →
      w'.get_block_at (-x) (-y) z = w'.get_block_at x y z := by
    intro w' hcs
    have h1 : w'.get_chunk_index x y = (0, 0) :=
      chunk_index_origin w' (by omega) (by omega)
    have h2 : w'.get_chunk_index (-x) (-y) = (0, 0) := by
      refine chunk_index_origin w' ?_ ?_ <;> rw [Int.natAbs_neg] <;> omega
    have hconv : w'.convert_coords (-x) (-y) z = w'.convert_coords x y z := by
      simp [World.convert_coords, Int.natAbs_neg]
    simp only [World.get_block_at, World.get_chunk_at, h1, h2, hconv]
  refine ⟨chunk_index_origin w hx hy, ?_, ?_, ?_, ?_⟩
  · refine chunk_index_origin w ?_ ?_ <;> rw [Int.natAbs_neg] <;> omega
  · simp [World.convert_coords, Int.natAbs_neg]
  · simp [World.get_block_defaulting, key w rfl]
  · simp [World.get_block_defaulting, key (w.set_block_defaulting x y z b) rfl]

/-- Witness for C9's origin-cell aliasing at `x = 5`, `y = 7`, `z = 9` on a
fresh world (chunk size `256`). -/
theorem c9_z_sign_discarded_witness :
    ((5 : Int).natAbs < (World.new blockD).chunk_size ∧
      (7 : Int).natAbs < (World.new blockD).chunk_size) ∧
    ((World.new blockD).get_chunk_index 5 7 = (0, 0) ∧
      (World.new blockD).get_chunk_index (-5) (-7) = (0, 0) ∧
      (World.new blockD).convert_coords (-5) (-7) 9
        = (World.new blockD).convert_coords 5 7 9 ∧
      (World.new blockD).get_block_defaulting 5 7 9
        = (World.new blockD).get_block_defaulting (-5) (-7) 9 ∧
      ((World.new blockD).set_block_defaulting 5 7 9 blockA).get_block_defaulting (-5) (-7) 9
        = ((World.new blockD).set_block_defaulting 5 7 9 blockA).get_block_defaulting 5 7 9) :=
  ⟨⟨by decide, by decide⟩,
    (c9_z_sign_discarded (World.new blockD) 5 7 9 blockA).2.2 (by decide) (by decide)⟩

/-! ## Chunk indexing is truncation, not flooring (C7) -/

/-- C7 counterexample: at the negative coordinate `-5` (cell size `256`),
`get_chunk_index` yields `0`, not the cell-aligned floor `256·⌊-5/256⌋ =
-256` the claim requires. -/
theorem c7_counterexample :
    World.get_chunk_index (World.new blockD) (-5) (-5) = (0, 0) ∧
    ((World.new blockD).chunk_size : Int)
        * Int.fdiv (-5) ((World.new blockD).chunk_size : Int) = -256 ∧
    ((0 : Int), (0 : Int)) ≠ ((-256 : Int), (-256 : Int)) := by
  refine ⟨by decide, by decide, by decide⟩

/-- C7 amended: `get_chunk_index` computes `x - x % s` with Rust's
truncated remainder, which agrees with the flooring formula
`(s·⌊x/s⌋, s·⌊y/s⌋)` for non-negative coordinates (but rounds toward zero
for negative ones); reads and writes of `(x, y, z)` resolve to the Cell
stored under exactly that key. -/
theorem c7_chunk_index_floor_nonneg (w : World) (x y z : Int) (v : MetaBlock)
    (hx : 0 ≤ x) (hy : 0 ≤ y) :
    w.get_chunk_index x y
      = ((w.chunk_size : Int) * Int.fdiv x (w.chunk_size : Int),
         (w.chunk_size : Int) * Int.fdiv y (w.chunk_size : Int)) ∧
    w.get_block_at x y z
      = (assocLookup (w.get_chunk_index x y) w.chunks).map
          (fun ch => ch.get_block (w.convert_coords x y z).1
            (w.convert_coords x y z).2.1 (w.convert_coords x y z).2.2) ∧
    (w.set_block_defaulting x y z v).chunks
      = assocInsert (w.get_chunk_index x y)
          (((assocLookup (w.get_chunk_index x y) w.chunks).getD
              (Chunk.new w.default_block.get_block)).set_block
            (w.convert_coords x y z).1 (w.convert_coords x y z).2.1
            (w.convert_coords x y z).2.2 v)
          w.chunks := by
  have hcs : (0 : Int) ≤ (w.chunk_size : Int) := Int.natCast_nonneg _
  have main : ∀ a : Int, 0 ≤ a →
      a - Int.tmod a (w.chunk_size : Int)
        = (w.chunk_size : Int) * Int.fdiv a (w.chunk_size : Int) := by
    intro a ha
    rw [Int.fdiv_eq_ediv _ hcs, Int.tmod_eq_emod ha hcs, Int.emod_def, sub_sub_cancel]
  refine ⟨?_, ?_, rfl⟩
  · simp only [World.get_chunk_index]
    rw [main x hx, main y hy]
  · simp only [World.get_block_at, World.get_chunk_at]
    cases assocLookup (w.get_chunk_index x y) w.chunks <;> rfl

/-- Witness for C7's amended theorem at `x = 5`, `y = 7`, `z = 9` on a
fresh world. -/
theorem c7_chunk_index_floor_nonneg_witness :
    ((0 : Int) ≤ 5 ∧ (0 : Int) ≤ 7) ∧
    ((World.new blockD).get_chunk_index 5 7
      = (((World.new blockD).chunk_size : Int)
            * Int.fdiv 5 ((World.new blockD).chunk_size : Int),
         ((World.new blockD).chunk_size : Int)
            * Int.fdiv 7 ((World.new blockD).chunk_size : Int)) ∧
      (World.new blockD).get_block_at 5 7 9
        = (assocLookup ((World.new blockD).get_chunk_index 5 7)
              (World.new blockD).chunks).map
            (fun ch => ch.get_block ((World.new blockD).convert_coords 5 7 9).1
              ((World.new blockD).convert_coords 5 7 9).2.1
              ((World.new blockD).convert_coords 5 7 9).2.2) ∧
      ((World.new blockD).set_block_defaulting 5 7 9 blockA).chunks
        = assocInsert ((World.new blockD).get_chunk_index 5 7)
            (((assocLookup ((World.new blockD).get_chunk_index 5 7)
                  (World.new blockD).chunks).getD
                (Chunk.new (World.new blockD).default_block.get_block)).set_block
              ((World.new blockD).convert_coords 5 7 9).1
              ((World.new blockD).convert_coords 5 7 9).2.1
              ((World.new blockD).convert_coords 5 7 9).2.2 blockA)
            (World.new blockD).chunks) :=
  ⟨⟨by decide, by decide⟩,
    c7_chunk_index_floor_nonneg (World.new blockD) 5 7 9 blockA (by decide) (by decide)⟩

/-! ## The builder always panics (C10) -/

/-- C10: `build_transaction` never returns at all — on every builder it
panics, because the argument of `unwrap_or` is evaluated unconditionally
and `Uuid::parse_str` rejects the 31-character null-uuid literal (a simple
format needs 32 hex digits).  In particular it delivers neither the claimed
`Some` for a fully-coordinated `Set` nor for an `Undo`. -/
theorem c10_build_transaction_always_panics :
    (∀ b : RawTransactionBuilder, b.build_transaction = none) ∧
    RawTransactionBuilder.build_transaction
      { transaction_type := .Undo ⟨0, 0⟩, owner := none, time := none,
        coord_x := none, coord_y := none, coord_z := none } = none ∧
    RawTransactionBuilder.build_transaction
      { transaction_type := .Set blockA, owner := none, time := none,
        coord_x := some 0, coord_y := some 0, coord_z := some 0 } = none := by
  have hparse : uuid_parse_str null_uuid_str = none := by decide
  refine ⟨fun b => ?_, ?_, ?_⟩
  · simp only [RawTransactionBuilder.build_transaction, hparse]
  · simp only [RawTransactionBuilder.build_transaction, hparse]
  · simp only [RawTransactionBuilder.build_transaction, hparse]

/-! ## Sparse matrix lemmas for C8 -/

/-- An index found by `position` is within the coordinate list. -/
theorem position_lt_length {p : Nat × Nat} :
    ∀ {l : List (Nat × Nat)} {i : Nat}, position p l = some i → i < l.length := by
  intro l
  induction l with
  | nil => intro i h; simp [position] at h
  | cons q rest ih =>
    intro i h
    simp only [position] at h
    split at h
    · cases h; simp
    · obtain ⟨j, hj, rfl⟩ := Option.map_eq_some'.mp h
      simpa using ih hj

/-- `position` finds an occurrence of its argument. -/
theorem position_get {p : Nat × Nat} :
    ∀ {l : List (Nat × Nat)} {i : Nat}, position p l = some i → l[i]? = some p := by
  intro l
  induction l with
  | nil => intro i h; simp [position] at h
  | cons q rest ih =>
    intro i h
    simp only [position] at h
    split at h
    · cases h
      simpa using (by assumption : q = p)
    · obtain ⟨j, hj, rfl⟩ := Option.map_eq_some'.mp h
      simpa using ih hj

/-- A successful `position` search is unaffected by appending entries. -/
theorem position_append_of_some {p : Nat × Nat} (l2 : List (Nat × Nat)) :
    ∀ {l : List (Nat × Nat)} {i : Nat}, position p l = some i →
      position p (l ++ l2) = some i := by
  intro l
  induction l with
  | nil => intro i h; simp [position] at h
  | cons q rest ih =>
    intro i h
    simp only [position, List.cons_append, List.append_eq] at h ⊢
    by_cases hq : q = p
    · rw [if_pos hq] at h ⊢; exact h
    · rw [if_neg hq] at h ⊢
      obtain ⟨j, hj, rfl⟩ := Option.map_eq_some'.mp h
      rw [ih hj]
      rfl

/-- A failed `position` search continues into the appended entries, with
the index offset by the length of the first part. -/
theorem position_append_of_none {p : Nat × Nat} {l2 : List (Nat × Nat)} :
    ∀ {l : List (Nat × Nat)}, position p l = none →
      position p (l ++ l2) = (position p l2).map (· + l.length) := by
  intro l
  induction l with
  | nil => intro h; simp
  | cons q rest ih =>
    intro h
    simp only [position, List.cons_append, List.append_eq] at h ⊢
    by_cases hq : q = p
    · rw [if_pos hq] at h; exact absurd h (by simp)
    · rw [if_neg hq] at h ⊢
      have hrest : position p rest = none := by
        cases hpr : position p rest with
        | none => rfl
        | some j => rw [hpr] at h; simp at h
      rw [ih hrest, Option.map_map]
      cases hpl : position p l2 with
      | none => simp
      | some j => simp [Function.comp, Nat.add_assoc]

/-- Setting a well-formed slice leaves it well-formed: the coordinate and
value vectors stay parallel and the declared bounds are untouched. -/
theorem slice_set_wfb {T : Type} (s : Slice T) (w h x y : Nat) (v : T)
    (hw : s.wfb w h = true) : (s.set x y v).wfb w h = true := by
  obtain ⟨matrix, default, xs, ys⟩ := s
  cases matrix with
  | AMatrix d a b => simp [Slice.wfb] at hw
  | SMatrix coords data a b =>
    simp only [Slice.wfb, Bool.and_eq_true, beq_iff_eq] at hw
    obtain ⟨⟨hlen, hxs⟩, hys⟩ := hw
    simp only [Slice.set, Matrix.set]
    cases hpos : position (x, y) coords with
    | some i => simp [Slice.wfb, hlen, hxs, hys]
    | none => simp [Slice.wfb, hlen, hxs, hys]

/-- Reading back the coordinate just written into a well-formed slice
yields the written value. -/
theorem slice_get_set_self {T : Type} (s : Slice T) (w h x y : Nat) (v : T)
    (hw : s.wfb w h = true) (hx : x < w) (hy : y < h) :
    (s.set x y v).get x y = v := by
  obtain ⟨matrix, default, xs, ys⟩ := s
  cases matrix with
  | AMatrix d a b => simp [Slice.wfb] at hw
  | SMatrix coords data a b =>
    simp only [Slice.wfb, Bool.and_eq_true, beq_iff_eq] at hw
    obtain ⟨⟨hlen, hxs⟩, hys⟩ := hw
    have hbounds : ¬(x ≥ xs ∨ y ≥ ys) := by omega
    simp only [Slice.set, Slice.get, hbounds, if_false]
    simp only [Matrix.set]
    cases hpos : position (x, y) coords with
    | some i =>
      have hi : i < data.length := hlen ▸ position_lt_length hpos
      simp [Matrix.get, hpos, List.getElem?_set_self hi]
    | none =>
      have hnew : position (x, y) (coords ++ [(x, y)]) = some coords.length := by
        rw [position_append_of_none hpos]
        simp [position]
      simp [Matrix.get, hnew, hlen, List.getElem?_concat_length]

/-- Reading any other coordinate of a well-formed slice is unaffected by a
write. -/
theorem slice_get_set_ne {T : Type} (s : Slice T) (w h x y x' y' : Nat) (v : T)
    (hw : s.wfb w h = true) (hne : (x', y') ≠ (x, y)) :
    (s.set x y v).get x' y' = s.get x' y' := by
  obtain ⟨matrix, default, xs, ys⟩ := s
  cases matrix with
  | AMatrix d a b => simp [Slice.wfb] at hw
  | SMatrix coords data a b =>
    simp only [Slice.wfb, Bool.and_eq_true, beq_iff_eq] at hw
    obtain ⟨⟨hlen, hxs⟩, hys⟩ := hw
    by_cases hbounds : x' ≥ xs ∨ y' ≥ ys
    · simp [Slice.set, Slice.get, hbounds]
    · simp only [Slice.set, Slice.get, hbounds, if_false]
      simp only [Matrix.set]
      cases hpos : position (x, y) coords with
      | some i =>
        cases hpos' : position (x', y') coords with
        | some j =>
          have hij : i ≠ j := by
            intro hc
            subst hc
            have h1 := position_get hpos
            have h2 := position_get hpos'
            rw [h1] at h2
            exact hne (by cases h2; rfl)
          simp [Matrix.get, hpos', List.getElem?_set_ne hij]
        | none => simp [Matrix.get, hpos']
      | none =>
        cases hpos' : position (x', y') coords with
        | some j =>
          have hj := position_append_of_some [(x, y)] hpos'
          have hjlt : j < data.length := hlen ▸ position_lt_length hpos'
          simp [Matrix.get, hj, hpos', List.getElem?_append_left hjlt]
        | none =>
          have hnone : position (x', y') (coords ++ [(x, y)]) = none := by
            rw [position_append_of_none hpos']
            have : ((x, y) : Nat × Nat) ≠ (x', y') := fun hc => hne hc.symm
            simp [position, this]
          simp [Matrix.get, hnone, hpos']

/-- C8: on every well-formed cuboid, `set(x, y, z, v)` outside the declared
extents returns the no-effect sentinel `none` and allocates nothing; inside
the extents it returns a new volume in which `(x, y, z)` reads `v`, every
other in-bounds coordinate reads its previous value, and every layer other
than layer `z` is the very same slice as in the prior version (the list
entry — the shared `Arc` — is unchanged). -/
theorem c8_cuboid_set_frame {T : Type} (c : Cuboid T) (v : T) (x y z : Nat)
    (hwf : c.wfb = true) :
    ((x ≥ c.x_size ∨ y ≥ c.y_size ∨ z ≥ c.z_size) → c.set x y z v = none) ∧
    (x < c.x_size → y < c.y_size → z < c.z_size →
      ∃ c', c.set x y z v = some c' ∧
        c'.get x y z = v ∧
        (∀ x' y' z', x' < c.x_size → y' < c.y_size → z' < c.z_size →
          (x', y', z') ≠ (x, y, z) → c'.get x' y' z' = c.get x' y' z') ∧
        (∀ j, j ≠ z → c'.data[j]? = c.data[j]?) ∧
        c'.data.length = c.data.length) := by
  simp only [Cuboid.wfb, Bool.and_eq_true, beq_iff_eq, List.all_eq_true] at hwf
  obtain ⟨hlen, hall⟩ := hwf
  constructor
  · intro hout
    simp [Cuboid.set, hout]
  · intro hx hy hz
    have hzlen : z < c.data.length := by omega
    have hsl : c.data[z]? = some c.data[z] := List.getElem?_eq_getElem hzlen
    have hslwf : (c.data[z]).wfb c.x_size c.y_size = true :=
      hall _ (c.data.getElem_mem hzlen)
    have hbounds : ¬(x ≥ c.x_size ∨ y ≥ c.y_size ∨ z ≥ c.z_size) := by omega
    refine ⟨{ c with data := c.data.set z ((c.data[z]).set x y v) }, ?_, ?_, ?_, ?_, ?_⟩
    · simp only [Cuboid.set, hbounds, if_false, hsl]
    · simp only [Cuboid.get, hbounds, if_false]
      have : (c.data.set z ((c.data[z]).set x y v))[z]? = some ((c.data[z]).set x y v) :=
        List.getElem?_set_self (by simpa using hzlen)
      rw [this]
      exact slice_get_set_self _ _ _ _ _ _ hslwf hx hy
    · intro x' y' z' hx' hy' hz' hne
      have hbounds' : ¬(x' ≥ c.x_size ∨ y' ≥ c.y_size ∨ z' ≥ c.z_size) := by omega
      simp only [Cuboid.get, hbounds', if_false]
      by_cases hzz : z' = z
      · subst hzz
        have : (c.data.set z' ((c.data[z']).set x y v))[z']? = some ((c.data[z']).set x y v) :=
          List.getElem?_set_self (by simpa using hzlen)
        rw [this, hsl]
        have hxyne : ((x', y') : Nat × Nat) ≠ (x, y) := by
          intro hc
          apply hne
          cases hc
          rfl
        exact slice_get_set_ne _ _ _ _ _ _ _ _ hslwf hxyne
      · have : (c.data.set z ((c.data[z]).set x y v))[z']? = c.data[z']? :=
          List.getElem?_set_ne (fun hc => hzz hc.symm)
        rw [this]
    · intro j hj
      exact List.getElem?_set_ne (fun hc => hj hc.symm)
    · simp

/-- Witness for C8 on a concrete `2 × 2 × 2` cuboid of blocks. -/
theorem c8_cuboid_set_frame_witness :
    (Cuboid.new 2 2 2 (Block.new_from_ids 0 0)).wfb = true ∧
    (((0 ≥ (Cuboid.new 2 2 2 (Block.new_from_ids 0 0)).x_size
          ∨ 1 ≥ (Cuboid.new 2 2 2 (Block.new_from_ids 0 0)).y_size
          ∨ 1 ≥ (Cuboid.new 2 2 2 (Block.new_from_ids 0 0)).z_size) →
        (Cuboid.new 2 2 2 (Block.new_from_ids 0 0)).set 0 1 1 (Block.new_from_ids 0 7) = none) ∧
      (0 < (Cuboid.new 2 2 2 (Block.new_from_ids 0 0)).x_size →
        1 < (Cuboid.new 2 2 2 (Block.new_from_ids 0 0)).y_size →
        1 < (Cuboid.new 2 2 2 (Block.new_from_ids 0 0)).z_size →
        ∃ c', (Cuboid.new 2 2 2 (Block.new_from_ids 0 0)).set 0 1 1 (Block.new_from_ids 0 7)
            = some c' ∧
          c'.get 0 1 1 = Block.new_from_ids 0 7 ∧
          (∀ x' y' z', x' < (Cuboid.new 2 2 2 (Block.new_from_ids 0 0)).x_size →
            y' < (Cuboid.new 2 2 2 (Block.new_from_ids 0 0)).y_size →
            z' < (Cuboid.new 2 2 2 (Block.new_from_ids 0 0)).z_size →
            (x', y', z') ≠ (0, 1, 1) →
            c'.get x' y' z' = (Cuboid.new 2 2 2 (Block.new_from_ids 0 0)).get x' y' z') ∧
          (∀ j, j ≠ 1 →
            c'.data[j]? = (Cuboid.new 2 2 2 (Block.new_from_ids 0 0)).data[j]?) ∧
          c'.data.length = (Cuboid.new 2 2 2 (Block.new_from_ids 0 0)).data.length)) :=
  ⟨by decide, c8_cuboid_set_frame (Cuboid.new 2 2 2 (Block.new_from_ids 0 0))
    (Block.new_from_ids 0 7) 0 1 1 (by decide)⟩

/-! ## Iterated appends and id assignment (C5) -/

/-- `rangeLog` grows by one entry at the end. -/
theorem rangeLog_snoc (raws : Nat → RawTransaction) (n : Nat) :
    rangeLog raws (n + 1) = rangeLog raws n ++ [(⟨n, 0⟩, ⟨raws n, ⟨n, 0⟩⟩)] := by
  simp [rangeLog, List.range_succ]

/-- The maximal entry of a non-empty `rangeLog`. -/
theorem rangeLog_getLast (raws : Nat → RawTransaction) (m : Nat) :
    (rangeLog raws (m + 1)).getLast? = some (⟨m, 0⟩, ⟨raws m, ⟨m, 0⟩⟩) := by
  rw [rangeLog_snoc]
  exact List.getLast?_concat _

/-- Inserting a key strictly greater than every key of the list appends the
new pair at the end. -/
theorem insertSorted_append (k : TransactionID) (v : Transaction) :
    ∀ l : List (TransactionID × Transaction),
      (∀ p ∈ l, TransactionID.ltb p.1 k = true) → insertSorted k v l = l ++ [(k, v)] := by
  intro l
  induction l with
  | nil => intro _; rfl
  | cons q rest ih =>
    intro h
    obtain ⟨q1, q2⟩ := q
    have hq := h (q1, q2) (List.mem_cons_self _ _)
    simp only [TransactionID.ltb, decide_eq_true_eq] at hq
    have h1 : TransactionID.ltb k q1 = false := by
      simp only [TransactionID.ltb, decide_eq_false_iff_not]
      omega
    have h2 : k ≠ q1 := by
      intro hc
      subst hc
      omega
    have hstep2 : insertSorted k v ((q1, q2) :: rest) = (q1, q2) :: insertSorted k v rest := by
      simp [insertSorted, h1, h2]
    rw [hstep2, ih (fun p hp => h p (List.mem_cons_of_mem _ hp)), List.cons_append]

/-- Inserting an already-present smallest key replaces the head entry. -/
theorem insertSorted_head (k : TransactionID) (v w : Transaction)
    (rest : List (TransactionID × Transaction)) :
    insertSorted k v ((k, w) :: rest) = (k, v) :: rest := by
  have hirr : TransactionID.ltb k k = false := by
    simp only [TransactionID.ltb, decide_eq_false_iff_not]
    omega
  simp [insertSorted, hirr]

/-- Unfolding lemma for one append step (kept propositional so that large
numeric literals are never reduced by the kernel). -/
theorem iterAdd_succ (raws : Nat → RawTransaction) (k : Nat) :
    iterAdd raws (k + 1) = ((iterAdd raws k).add_transaction (raws k)).1 := by
  simp only [iterAdd]

/-- Key lemma for C5: as long as no more than `2 ^ 32` transactions have
been appended, the log consists of exactly the committed transactions with
ids `(0,0), (1,0), ...` in order — each append assigned
`(previousMax.major + 1, 0)` (or `(0,0)` on the empty log). -/
theorem iterAdd_eq (raws : Nat → RawTransaction) :
    ∀ k, k ≤ 2 ^ 32 → (iterAdd raws k).transactions = rangeLog raws k := by
  intro k
  induction k with
  | zero => intro _; rfl
  | succ n ih =>
    intro hk
    have hprev := ih (Nat.le_of_succ_le hk)
    have hstep : (iterAdd raws (n + 1)).transactions
        = insertSorted ⟨n, 0⟩ ⟨raws n, ⟨n, 0⟩⟩ (rangeLog raws n) := by
      cases n with
      | zero => rfl
      | succ m =>
        have hinc : TransactionID.increment_major ⟨m, 0⟩ = ⟨m + 1, 0⟩ := by
          have h0 : TransactionID.increment_major ⟨m, 0⟩ = ⟨(m + 1) % 2 ^ 32, 0⟩ := rfl
          rw [h0, Nat.mod_eq_of_lt (by omega)]
        rw [iterAdd_succ]
        simp only [WorldLine.add_transaction, hprev, rangeLog_getLast, hinc,
          Transaction.new]
    rw [hstep, rangeLog_snoc]
    apply insertSorted_append
    intro p hp
    simp only [rangeLog, List.mem_map, List.mem_range] at hp
    obtain ⟨i, hi, rfl⟩ := hp
    simp only [TransactionID.ltb, decide_eq_true_eq]
    omega

/-- C5 (amended): for every sequence of pending transactions and every
`N ≤ 2 ^ 32`, after `N` appends the log is exactly the `N` committed
transactions with strictly increasing major ids `0, 1, ..., N − 1` (minor
`0`), so its length is exactly `N`. -/
theorem c5_append_growth_bounded (raws : Nat → RawTransaction) (N : Nat)
    (hN : N ≤ 2 ^ 32) :
    (iterAdd raws N).transactions = rangeLog raws N ∧
    (iterAdd raws N).transactions.length = N := by
  have h := iterAdd_eq raws N hN
  exact ⟨h, by simp [h, rangeLog]⟩

/-- Witness for C5's amended theorem at `N = 3`. -/
theorem c5_append_growth_bounded_witness :
    3 ≤ 2 ^ 32 ∧
    ((iterAdd (fun _ => rawSetA) 3).transactions = rangeLog (fun _ => rawSetA) 3 ∧
      (iterAdd (fun _ => rawSetA) 3).transactions.length = 3) :=
  ⟨by norm_num, c5_append_growth_bounded (fun _ => rawSetA) 3 (by norm_num)⟩

/-- C5 counterexample: the `u32` major wraps after `2 ^ 32` appends — the
`(2 ^ 32 + 1)`-st successful append is assigned the already-used id `(0,0)`
and replaces the oldest entry, so the log length stays `2 ^ 32` instead of
reaching `2 ^ 32 + 1` as the claim requires. -/
theorem c5_counterexample :
    (iterAdd (fun _ => rawSetA) (2 ^ 32 + 1)).transactions.length = 2 ^ 32 ∧
    (iterAdd (fun _ => rawSetA) (2 ^ 32 + 1)).transactions.length ≠ 2 ^ 32 + 1 := by
  obtain ⟨K, hK⟩ : ∃ K, (2 : Nat) ^ 32 = K + 1 := ⟨2 ^ 32 - 1, by norm_num⟩
  have h32 := iterAdd_eq (fun _ => rawSetA) (2 ^ 32) (Nat.le_refl _)
  have hlast : (rangeLog (fun _ => rawSetA) (2 ^ 32)).getLast?
      = some (⟨K, 0⟩, ⟨rawSetA, ⟨K, 0⟩⟩) := by
    rw [hK, rangeLog_getLast]
  have hinc0 : TransactionID.increment_major ⟨K, 0⟩ = ⟨0, 0⟩ := by
    have h0 : TransactionID.increment_major ⟨K, 0⟩ = ⟨(K + 1) % 2 ^ 32, 0⟩ := rfl
    rw [h0, ← hK, Nat.mod_self]
  have hstep : (iterAdd (fun _ => rawSetA) (2 ^ 32 + 1)).transactions
      = insertSorted ⟨0, 0⟩ ⟨rawSetA, ⟨0, 0⟩⟩ (rangeLog (fun _ => rawSetA) (2 ^ 32)) := by
    rw [iterAdd_succ]
    simp only [WorldLine.add_transaction, h32, hlast, hinc0, Transaction.new]
  have hlen32 : (rangeLog (fun _ => rawSetA) (2 ^ 32)).length = 2 ^ 32 := by
    simp [rangeLog]
  have hcons : ∃ tail, rangeLog (fun _ => rawSetA) (2 ^ 32)
      = (⟨0, 0⟩, (⟨rawSetA, ⟨0, 0⟩⟩ : Transaction)) :: tail := by
    rw [hK]
    simp only [rangeLog, List.range_succ_eq_map, List.map_cons]
    exact ⟨_, rfl⟩
  obtain ⟨tail, htail⟩ := hcons
  have htl : tail.length + 1 = 2 ^ 32 := by
    rw [htail] at hlen32
    simpa using hlen32
  rw [hstep, htail, insertSorted_head]
  simp only [List.length_cons]
  omega

end Rw
